import Mathlib

/-!
# Verification of `sabnzbd/nzbparser.py`

This file is a shallow embedding, in Lean 4, of the NZB-ingestion core of the
repository (`src/sabnzbd/nzbparser.py`), together with theorems settling the
frozen claims about its specification.

Modelling conventions:

* Python's unbounded `int` is `Int`; Python float timestamps and the float
  division used for the average timestamp are modelled with `ℚ` (the division
  `avg_age_sum / max(1, valid_files)` is exact on the values that occur).
* The running MD5 state (`hashlib.md5()` plus repeated `update` calls) is
  modelled by the exact sequence of strings fed to it, in order: the digest is
  a pure function of that byte stream, so two digests are equal exactly when
  the fed streams are equal, and the spec's "hash of the concatenated
  identifiers" is the stream itself.
* The element tree consumed by `nzbfile_parser` is modelled by `Doc`
  (meta entries, then file entries with subject/date attributes, group texts
  and segment entries); absent attributes / absent element text are `none`,
  mirroring `Element.attrib.get` and `Element.text` returning `None`.
* The line-oriented input consumed by `nzbfile_regex_parser` is modelled by
  `List Line`, one constructor per recognized line shape (one per regex of the
  source: segment line, file-open line, file-close line, group line, meta
  line, ignorable line, whitespace line, the `<nzb` tag, the xml declaration,
  the `</nzb>` line, and unrecognized lines).  The regexes of the source are
  mutually exclusive on these shapes except that a `<nzb ...>` line in the
  body matches `ignorable_re` (modelled accordingly).
* `sabnzbd.nzbstuff.NzbObject` / `NzbFile` are not under `src/`; the parts of
  them the parsers touch are modelled from the spec where indicated.
-/

/-- Article identifier (opaque string), as fed to the dedup hash. -/
abbrev ArticleId := String

/-- Per-file raw segment table: part number → (article id, declared size),
modelling the Python dict `raw_article_db` (insertion order kept, keys are
only ever inserted when absent, so they are unique). -/
abbrev Db := List (Int × (ArticleId × Int))

/-- Lookup modelling `partnum in raw_article_db` / `raw_article_db[partnum]`. -/
def dbLookup (db : Db) (num : Int) : Option (ArticleId × Int) :=
  (db.find? (fun e => e.1 = num)).map (fun e => e.2)

/-- Insertion sort step on part numbers, used to model Python's
`sorted(raw_article_db)` (keys are unique, so stable insertion sort agrees
with Python's sort). -/
def insertSorted (k : Int × (ArticleId × Int)) :
    List (Int × (ArticleId × Int)) → List (Int × (ArticleId × Int))
  | [] => [k]
  | x :: xs => if k.1 ≤ x.1 then k :: x :: xs else x :: insertSorted k xs

/-- Models `[raw_article_db[partnum] for partnum in sorted(raw_article_db)]`. -/
def dbSorted (db : Db) : List (ArticleId × Int) :=
  (db.foldr insertSorted []).map (fun e => e.2)

/-- Modelled from the spec: `sabnzbd.nzbstuff.NzbFile` (the Job Builder) is
not under `src/`.  A FileRecord carries the per-file timestamp, the display
name (the raw subject string), the segment sequence sorted by part number,
and the total byte size, plus the identifier (`nzf_id`) assigned on creation. -/
structure NzbFile where
  id : Nat
  timestamp : ℚ
  filename : String
  segments : List (ArticleId × Int)
  bytes : Int
deriving DecidableEq, Repr

/-- Modelled from the spec: two FileRecords are structurally equal when they
carry the same display name and the same segment set (the custom `__eq__`
used by `nzf in nzo.files` lives in `sabnzbd.nzbstuff`, not under `src/`). -/
def nzfEq (a b : NzbFile) : Bool :=
  a.filename = b.filename && a.segments = b.segments

/-- Modelled from the spec: the Job Builder marks the record valid; per §4.4
the only ingredient of validity beyond the name and duplicate checks (which
`nzbparser.py` performs itself) is that an identifier was successfully
assigned, which this in-memory model takes to always succeed. -/
def nzfValid : Bool := true

/-- Modelled from the spec: `nzf.nzf_id` is the identifier assigned on
creation; assignment always succeeds in this model. -/
def nzfHasId : Bool := true

/-- The Job under construction, modelling the fields of the `nzo`
(`sabnzbd.nzbstuff.NzbObject`) that `nzbparser.py` reads or writes.
`persisted` is the set of `nzf_id`s whose per-file side-artifacts are
currently persisted (modelled from the spec: creation of an `NzbFile`
persists an artifact, released by `sabnzbd.remove_data` /
`nzf.remove_admin`, both outside `src/`). `md5sum` holds, once finalized,
the stream of strings fed to the MD5 accumulator. -/
structure Nzo where
  meta : List (String × List String)
  groups : List (Option String)
  files : List NzbFile
  files_table : List (Nat × NzbFile)
  bytes : Int
  avg_stamp : ℚ
  md5sum : Option (List String)
  bytes_par2 : Int
  first_articles : List Nat
  first_articles_count : Int
  dup_articles : Nat
  bad_articles : Nat
  next_id : Nat
  persisted : List Nat
deriving DecidableEq, Repr

/-- A fresh Job, as handed to the parsers by `NzbObject.__init__`. -/
def emptyNzo : Nzo :=
  { meta := [], groups := [], files := [], files_table := [], bytes := 0,
    avg_stamp := 0, md5sum := none, bytes_par2 := 0, first_articles := [],
    first_articles_count := 0, dup_articles := 0, bad_articles := 0,
    next_id := 0, persisted := [] }

/-- Models `nzo.increase_bad_articles_counter("duplicate_articles")`. -/
def bumpDup (n : Nzo) : Nzo := { n with dup_articles := n.dup_articles + 1 }

/-- Models `nzo.increase_bad_articles_counter("bad_articles")`. -/
def bumpBad (n : Nzo) : Nzo := { n with bad_articles := n.bad_articles + 1 }

/-- Models the meta append of both parsers: `if meta_type and meta_text:`
(Python truthiness: the empty string is falsy) then append `meta_text` under
key `meta_type`, creating the key on first occurrence. -/
def appendMetaIf (n : Nzo) (ty tx : String) : Nzo :=
  if ty ≠ "" ∧ tx ≠ "" then
    if (n.meta.find? (fun e => e.1 = ty)).isSome then
      { n with meta := n.meta.map (fun e => if e.1 = ty then (e.1, e.2 ++ [tx]) else e) }
    else
      { n with meta := n.meta ++ [(ty, [tx])] }
  else n

/-- Models `if g not in nzo.groups: nzo.groups.append(g)` (the element tree
side can append `None`, since `group.text` may be `None`). -/
def insertGroup (n : Nzo) (g : Option String) : Nzo :=
  if g ∈ n.groups then n else { n with groups := n.groups ++ [g] }

/-- Models `sabnzbd.nzbstuff.NzbFile(file_date, file_name, raw_article_db_sorted,
file_bytes, nzo)` (modelled from the spec, the class is not under `src/`):
the record is created with a fresh identifier and its side-artifact is
persisted. -/
def mkNzbFile (n : Nzo) (ts : ℚ) (name : String) (segs : List (ArticleId × Int))
    (fbytes : Int) : NzbFile × Nzo :=
  (⟨n.next_id, ts, name, segs, fbytes⟩,
   { n with next_id := n.next_id + 1, persisted := n.persisted ++ [n.next_id] })

/-- Models `sabnzbd.remove_data(nzf.nzf_id, nzo.admin_path)` /
`nzf.remove_admin()` (modelled from the spec: releases the persisted
side-artifact of that record). -/
def removeData (n : Nzo) (i : Nat) : Nzo :=
  { n with persisted := n.persisted.filter (fun j => j ≠ i) }

/-- Models the acceptance of a valid `NzbFile` into the Job:
`nzo.files.append(nzf); nzo.files_table[nzf.nzf_id] = nzf; nzo.bytes += nzf.bytes`. -/
def acceptFile (n : Nzo) (f : NzbFile) : Nzo :=
  { n with files := n.files ++ [f], files_table := n.files_table ++ [(f.id, f)],
           bytes := n.bytes + f.bytes }

/-- Shared final bookkeeping of both parsers:
`nr_files = max(1, valid_files); nzo.avg_stamp = avg_age_sum / nr_files;
nzo.md5sum = md5sum.hexdigest()` (the digest is modelled by the fed stream). -/
def finalizeJob (n : Nzo) (md5 : List String) (avg : ℚ) (valid : Nat) : Nzo :=
  { n with avg_stamp := avg / ((max 1 valid : Nat) : ℚ), md5sum := some md5 }

/-! ## The element-tree view of a document (structured parser input) -/

/-- One `segment` element: element text, parsed `bytes` attribute and parsed
`number` attribute (`none` models an absent text / an absent or unparsable
attribute; every such case makes the per-segment `try` block of
`nzbfile_parser` fall into `except: pass` before any state is changed). -/
structure RawSegment where
  text : Option ArticleId
  bytes : Option Int
  number : Option Int
deriving DecidableEq, Repr

/-- One `file` element: `subject` and parsed `date` attributes, the texts of
the nested `group` elements, and the nested `segment` elements. -/
structure RawFile where
  subject : Option String
  date : Option Int
  groups : List (Option String)
  segments : List RawSegment
deriving DecidableEq, Repr

/-- One `meta` element of the header: `type` attribute and element text. -/
structure RawMeta where
  type : Option String
  text : Option String
deriving DecidableEq, Repr

/-- A document that `xml.etree.ElementTree.fromstring` parsed successfully. -/
structure Doc where
  metas : List RawMeta
  files : List RawFile
deriving DecidableEq, Repr

/-! ## Structured parser (`nzbfile_parser`, the element-tree pass) -/

/-- Header step of `nzbfile_parser`: for each `meta` element,
`meta_type = meta.attrib.get("type"); if meta_type and meta.text: append`. -/
def metaStep (n : Nzo) (m : RawMeta) : Nzo :=
  match m.type, m.text with
  | some ty, some tx => appendMetaIf n ty tx
  | _, _ => n

/-- State threaded through the per-file segment loop of `nzbfile_parser`:
the job, the local MD5 stream, the raw article table and the running
`file_bytes`. -/
structure SegSt where
  nzo : Nzo
  md5 : List String
  db : Db
  fbytes : Int
deriving DecidableEq, Repr

/-- One iteration of the segment loop of `nzbfile_parser`.  All effects
happen only when text, `bytes` and `number` are all present (otherwise the
`try` block raises before any state change).  The MD5 update happens first,
before the duplicate-part and size checks; a duplicate part number leaves the
table unchanged (first-seen wins) and bumps the `duplicate_articles` counter
only when the identifiers differ; a size outside `0 < size < 2^23` bumps
`bad_articles`; otherwise the segment is added and counted. -/
def segStep (st : SegSt) (s : RawSegment) : SegSt :=
  match s.text, s.bytes, s.number with
  | some id, some size, some num =>
    let md5 := st.md5 ++ [id]
    match dbLookup st.db num with
    | some prev =>
      if id ≠ prev.1 then { st with md5 := md5, nzo := bumpDup st.nzo }
      else { st with md5 := md5 }
    | none =>
      if size ≤ 0 ∨ 8388608 ≤ size then { st with md5 := md5, nzo := bumpBad st.nzo }
      else { st with md5 := md5, db := st.db ++ [(num, (id, size))],
                     fbytes := st.fbytes + size }
  | _, _, _ => st

/-- State threaded through the file loop of `nzbfile_parser`: the job, the
MD5 stream, `avg_age_sum`, `valid_files` and `skipped_files`. -/
structure FoldSt where
  nzo : Nzo
  md5 : List String
  avg : ℚ
  valid : Nat
  skipped : Nat
deriving DecidableEq, Repr

/-- The per-file timestamp: the parsed `date` attribute, falling back to the
current time when missing or unparsable. -/
def tsOf (tNow : ℚ) (d : Option Int) : ℚ :=
  match d with
  | some d => (d : ℚ)
  | none => tNow

/-- One iteration of the file loop of `nzbfile_parser`: read subject and
date, collect groups, run the segment loop, build the `NzbFile`, drop it if
an equal record was already accepted, accept it when the name is non-empty
and the Job Builder marked it valid, otherwise release its artifact and count
it as skipped. -/
def fileStep (tNow : ℚ) (st : FoldSt) (f : RawFile) : FoldSt :=
  let file_name := f.subject.getD ""
  let ts := tsOf tNow f.date
  let nzo1 := f.groups.foldl insertGroup st.nzo
  let seg := f.segments.foldl segStep ⟨nzo1, st.md5, [], 0⟩
  let built := mkNzbFile seg.nzo ts file_name (dbSorted seg.db) seg.fbytes
  let nzf := built.1
  let nzo2 := built.2
  if nzo2.files.any (nzfEq nzf) then
    { st with nzo := nzo2, md5 := seg.md5 }
  else if file_name ≠ "" ∧ nzfValid ∧ nzfHasId then
    { nzo := acceptFile nzo2 nzf, md5 := seg.md5, avg := st.avg + ts,
      valid := st.valid + 1, skipped := st.skipped }
  else
    { st with nzo := if nzfHasId then removeData nzo2 nzf.id else nzo2,
              md5 := seg.md5, skipped := st.skipped + 1 }

/-- The element-tree pass of `nzbfile_parser` (lines 46–160 of
`nzbparser.py`), as a function of the parsed tree: header metas, then the
file loop, then final bookkeeping. -/
def structuredParse (tNow : ℚ) (d : Doc) (n : Nzo) : Nzo :=
  let n1 := d.metas.foldl metaStep n
  let st := d.files.foldl (fileStep tNow) ⟨n1, [], 0, 0, 0⟩
  finalizeJob st.nzo st.md5 st.avg st.valid

/-! ## Streaming fallback parser (`nzbfile_regex_parser`) -/

/-- One input line, classified by the regexes of `nzbfile_regex_parser`.
`segLine` carries the parsed `bytes` and `number` attributes (`none` when the
attribute is absent or unparsable, which raises inside the `try`) and the
element text; `fileLine` carries the `subject` and parsed `date` attributes;
`xmlDecl` carries the `encoding` attribute of an XML declaration line;
`blank` is the bare `"\n"` line (skipped before any recognizer, uncounted in
the header loop); `wsLine` is a whitespace-only line (matched by
`whitespace_re` in the body, but counted like any other line in the header
loop); `ignorable` covers the `ignorable_re` shapes; `unrecognized` is any
other non-blank line. -/
inductive Line where
  | segLine (bytes : Option Int) (number : Option Int) (text : ArticleId)
  | fileLine (subject : Option String) (date : Option Int)
  | fileEnd
  | groupLine (g : String)
  | metaLine (ty : String) (tx : String)
  | ignorable
  | blank
  | wsLine
  | xmlDecl (encoding : Option String)
  | nzbTag
  | endNzb
  | unrecognized
deriving DecidableEq, Repr

/-- The open-file accumulator of the streaming parser: `file_name`,
`file_timestamp`, `raw_article_db` and `file_bytes`, live while
`open_file_tag` is set. -/
structure FileAcc where
  name : String
  ts : ℚ
  db : Db
  fbytes : Int
deriving DecidableEq, Repr

/-- The state of the streaming parser's line loop: the job, the local MD5
stream, `avg_age_sum`, `valid_files`, and the open-file accumulator
(`none` models `open_file_tag == 0`). -/
structure SState where
  nzo : Nzo
  md5 : List String
  avg : ℚ
  valid : Nat
  openF : Option FileAcc
deriving DecidableEq, Repr

/-- Result of one body line: continue, break out of the loop (`</nzb>`), or
raise (the carried state is the state at the moment of the raise; only its
`nzo` is observable, through the rollback). -/
inductive StepRes where
  | cont (st : SState)
  | done (st : SState)
  | fatal (st : SState)
deriving Repr

/-- One iteration of the body loop of `nzbfile_regex_parser` (lines
226–359): the segment, file-close, ignorable, file-open, group, meta,
whitespace and `</nzb>` recognizers in the source's order, every anomaly
raising. -/
def bodyStep (tNow : ℚ) (st : SState) : Line → StepRes
  | .segLine sbytes snumber text =>
    match st.openF with
    | none => .fatal st
    | some acc =>
      match sbytes, snumber with
      | some size, some num =>
        let md5 := st.md5 ++ [text]
        match dbLookup acc.db num with
        | some _ => .fatal { st with md5 := md5 }
        | none =>
          if size ≤ 0 ∨ 8388608 ≤ size then .fatal { st with md5 := md5 }
          else
            let acc2 : FileAcc :=
              { acc with db := acc.db ++ [(num, (text, size))],
                         fbytes := acc.fbytes + size }
            .cont { st with md5 := md5, openF := some acc2 }
      | _, _ => .fatal st
  | .fileEnd =>
    match st.openF with
    | none => .fatal st
    | some acc =>
      if acc.name = "" then .fatal { st with openF := none }
      else
        let built := mkNzbFile st.nzo acc.ts acc.name (dbSorted acc.db) acc.fbytes
        let nzf := built.1
        let nzo2 := built.2
        if nzo2.files.any (nzfEq nzf) then .cont { st with nzo := nzo2, openF := none }
        else if nzfValid ∧ nzfHasId then
          .cont { st with nzo := acceptFile nzo2 nzf, avg := st.avg + acc.ts,
                          valid := st.valid + 1, openF := none }
        else .fatal { st with nzo := nzo2, openF := none }
  | .ignorable => .cont st
  | .fileLine subj date =>
    match st.openF with
    | some _ => .fatal st
    | none =>
      match subj with
      | none => .fatal st
      | some s => .cont { st with openF := some ⟨s, tsOf tNow date, [], 0⟩ }
  | .groupLine g => .cont { st with nzo := insertGroup st.nzo (some g) }
  | .metaLine ty tx => .cont { st with nzo := appendMetaIf st.nzo ty tx }
  | .blank => .cont st
  | .wsLine => .cont st
  | .xmlDecl _ => .fatal st
  | .nzbTag => .cont st
  | .endNzb =>
    match st.openF with
    | some _ => .fatal st
    | none => .done st
  | .unrecognized => .fatal st

/-- The body loop: run to the end of input (success), break at `</nzb>`
(success), or raise (failure, carrying the state at the raise). -/
def runBody (tNow : ℚ) : List Line → SState → Except SState SState
  | [], st => .ok st
  | l :: ls, st =>
    match bodyStep tNow st l with
    | .fatal s => .error s
    | .done s => .ok s
    | .cont s => runBody tNow ls s

/-- The header loop of `nzbfile_regex_parser` (lines 207–223): read lines,
skipping blank ones, until the `<nzb` tag; more than 10 counted lines (also
at end of input, where `readline` keeps returning the empty string) raises;
on success return the remaining lines and whether an XML declaration carrying
an `encoding` attribute was seen among the consumed header lines. -/
def headerScan : List Line → Nat → Bool → Option (List Line × Bool)
  | [], _, _ => none
  | l :: ls, count, enc =>
    match l with
    | .blank => headerScan ls count enc
    | .nzbTag => if count + 1 > 10 then none else some (ls, enc)
    | .xmlDecl e =>
      if count + 1 > 10 then none else headerScan ls (count + 1) (enc || e.isSome)
    | _ => if count + 1 > 10 then none else headerScan ls (count + 1) enc

/-- The rollback of `nzbfile_regex_parser`'s failure branch (lines 372–382):
release the admin artifact of every record in `nzo.files`, then clear
`first_articles`, `first_articles_count`, `bytes_par2`, `files`,
`files_table` and `bytes`. -/
def rollbackNzo (n : Nzo) : Nzo :=
  let n1 := n.files.foldl (fun m f => removeData m f.id) n
  { n1 with first_articles := [], first_articles_count := 0, bytes_par2 := 0,
            files := [], files_table := [], bytes := 0 }

/-- The streaming fallback parser `nzbfile_regex_parser` (lines 163–382):
header scan, encoding sanity check, body loop, then either final bookkeeping
(returning `True`) or rollback (returning `False`).  The header phase does
not mutate the job, so its failures roll back the incoming job. -/
def nzbfile_regex_parse (tNow : ℚ) (ls : List Line) (n : Nzo) : Bool × Nzo :=
  match headerScan ls 0 false with
  | none => (false, rollbackNzo n)
  | some (rest, enc) =>
    if enc then
      match runBody tNow rest ⟨n, [], 0, 0, none⟩ with
      | .ok st => (true, finalizeJob st.nzo st.md5 st.avg st.valid)
      | .error st => (false, rollbackNzo st.nzo)
    else (false, rollbackNzo n)

/-! ## The combined entry point (`nzbfile_parser`, lines 40–47) -/

/-- The two parsers, used to record which one the entry point attempted. -/
inductive WhichParser where
  | streaming
  | structured
deriving DecidableEq, Repr

/-- The raw NZB data, seen both as the line sequence the streaming parser
reads and as the element tree the structured parser reads
(`tree = none` models `xml.etree.ElementTree.fromstring` raising). -/
structure RawData where
  lines : List Line
  tree : Option Doc

/-- The entry point `nzbfile_parser` (lines 40–47): try the regex parser
first and return on its success; otherwise parse the data as an element tree
(failure of that parse propagates: the document is rejected, modelled by
`none`).  The second component records, in order, which parsers were
attempted. -/
def nzbfile_parse (tNow : ℚ) (raw : RawData) (n : Nzo) :
    Option Nzo × List WhichParser :=
  let r := nzbfile_regex_parse tNow raw.lines n
  if r.1 then (some r.2, [.streaming])
  else
    match raw.tree with
    | some d => (some (structuredParse tNow d r.2), [.streaming, .structured])
    | none => (none, [.streaming, .structured])

/-! ## Rendering a tree-shaped document as lines

For the refinement claim the two parsers must consume the same document.  A
`Doc` is rendered to its line form; `WellFormedDoc` carves out exactly the
documents whose rendering is faithful (an absent group text or an absent
segment text would render to the same characters as an empty string, which
the regexes read back differently from the tree view). -/

/-- Render one segment element as its line. -/
def renderSeg (s : RawSegment) : Line := .segLine s.bytes s.number (s.text.getD "")

/-- Render one group element as its line. -/
def renderGroup (g : Option String) : Line := .groupLine (g.getD "")

/-- Render one meta element as its line. -/
def renderMeta (m : RawMeta) : Line := .metaLine (m.type.getD "") (m.text.getD "")

/-- Render one file element as its lines. -/
def renderFile (f : RawFile) : List Line :=
  .fileLine f.subject f.date :: (f.groups.map renderGroup ++
    (f.segments.map renderSeg ++ [.fileEnd]))

/-- Render a document: XML declaration with an encoding, the `<nzb` tag, the
header metas, the files, the closing `</nzb>`. -/
def renderDoc (d : Doc) : List Line :=
  .xmlDecl (some "utf-8") :: .nzbTag :: (d.metas.map renderMeta ++
    (d.files.flatMap renderFile ++ [.endNzb]))

/-- A document is well formed (spec §6: group elements carry text, segment
elements carry an identifier as element text) when every group and every
segment text is present; exactly these documents round-trip faithfully
through `renderDoc`. -/
def WellFormedDoc (d : Doc) : Prop :=
  ∀ f ∈ d.files, (∀ g ∈ f.groups, g.isSome) ∧ (∀ s ∈ f.segments, s.text.isSome)

instance : DecidablePred WellFormedDoc := fun d =>
  inferInstanceAs (Decidable (∀ f ∈ d.files, _ ∧ _))

/-! ## Ingestion orchestrator (`process_single_nzb`, `process_nzb_archive_file`) -/

/-- Models Python's `str.find`: the first index of the pattern in the
haystack, or `-1` when absent (over character lists). -/
def pyFind : List Char → List Char → Int
  | [], pat => if pat = [] then 0 else -1
  | c :: rest, pat =>
    if pat.isPrefixOf (c :: rest) then 0
    else if pyFind rest pat = -1 then -1 else pyFind rest pat + 1

/-- Whether a pattern occurs as a contiguous substring of the haystack. -/
def occursIn (hay pat : List Char) : Bool :=
  match hay with
  | [] => pat = []
  | c :: rest => pat.isPrefixOf (c :: rest) || occursIn rest pat

/-- The outcome of the `nzbstuff.NzbObject(...)` construction, as classified
by the `except` clauses of `process_single_nzb` / `process_nzb_archive_file`
(`TypeError` = already-queued duplicate, `ValueError` = empty document,
any other exception = neither parser produced a valid document). -/
inductive CtorOutcome where
  | success
  | dupTypeError
  | emptyValueError
  | otherError
deriving DecidableEq, Repr

/-- The observable result of `process_single_nzb`: the returned status and
job-id list, whether removal of the source file was attempted, and whether a
pending future job was removed from the queue. -/
structure SingleRes where
  status : Int
  nzoIds : List Nat
  removeAttempted : Bool
  futureRemoved : Bool
deriving DecidableEq, Repr

/-- The orchestrator `process_single_nzb` (lines 486–592), as a function of
the outcome of reading the source (`readOk`), the constructor outcome, the
decoded text (used only by the truncation heuristic), the caller's `keep`
flag, a pending future job id, and the id the queue assigns on success:
an unreadable source returns `-2`; a `TypeError` (duplicate) removes the
pending future job, falls through to the disposal step and returns `0`; a
`ValueError` (empty) returns `1` immediately; any other constructor failure
returns `-2` when `data.find("<nzb") >= 0 > data.find("</nzb")` and `-1`
otherwise; success queues the job and falls through to the disposal step,
where removal is attempted exactly when `keep` is false and its failure does
not change the status. -/
def process_single_nzb (readOk : Bool) (outcome : CtorOutcome) (data : List Char)
    (keep : Bool) (nzoId : Option Nat) (qid : Nat) : SingleRes :=
  if ¬readOk then ⟨-2, [], false, false⟩
  else
    match outcome with
    | .success => ⟨0, [qid], !keep, nzoId.isSome⟩
    | .dupTypeError => ⟨0, [], !keep, nzoId.isSome⟩
    | .emptyValueError => ⟨1, [], false, false⟩
    | .otherError =>
      if pyFind data "<nzb".toList ≥ 0 ∧ 0 > pyFind data "</nzb".toList then
        ⟨-2, [], false, false⟩
      else ⟨-1, [], false, false⟩

/-- One archive member, as `process_nzb_archive_file` sees it: whether its
lower-cased name ends in `.nzb`, and the outcome of reading it (`none`
models the `OSError` branch; `some (nonEmpty, ctor)` models a successful
read, with `nonEmpty` the truthiness of the decoded data and `ctor` the
constructor outcome). -/
structure Member where
  isNzb : Bool
  read : Option (Bool × CtorOutcome)
deriving DecidableEq, Repr

/-- The member loop of `process_nzb_archive_file` (lines 430–471): `.nzb`
members are read (an `OSError` aborts the whole call with `-1`), empty data
is skipped, a successful construction appends the queue id, duplicate/empty
and all other constructor failures skip the member. -/
def archiveLoop : List Member → List Nat → Nat → Int × List Nat
  | [], ids, _ => (0, ids)
  | m :: ms, ids, nextQ =>
    if m.isNzb then
      match m.read with
      | none => (-1, [])
      | some (nonEmpty, ctor) =>
        if nonEmpty then
          match ctor with
          | .success => archiveLoop ms (ids ++ [nextQ]) (nextQ + 1)
          | _ => archiveLoop ms ids nextQ
        else archiveLoop ms ids nextQ
    else archiveLoop ms ids nextQ

/-- The orchestrator `process_nzb_archive_file` (lines 385–483), as a
function of the `is_archive` status and the member list: a non-zero archive
status is returned as is; with no `.nzb` member the call returns `(1, [])`;
otherwise the member loop runs and, absent a read error, the call returns
status `0` together with the queued ids (0, 1, 2, … in member order). -/
def process_nzb_archive_file (archStatus : Int) (members : List Member) :
    Int × List Nat :=
  if archStatus ≠ 0 then (archStatus, [])
  else if members.any (fun m => m.isNzb) then archiveLoop members [] 0
  else (1, [])

/-! ## Derived specification-side functions and concrete inputs -/

/-- The identifiers a segment list feeds into the MD5 accumulator: exactly
the texts of the segments whose text, `bytes` and `number` all parse
(document order). -/
def segParsedIds (segs : List RawSegment) : List ArticleId :=
  segs.filterMap (fun s =>
    match s.text, s.bytes, s.number with
    | some id, some _, some _ => some id
    | _, _, _ => none)

/-- All identifiers a document feeds into the MD5 accumulator, in document
order. -/
def allParsedIds (d : Doc) : List ArticleId :=
  d.files.flatMap (fun f => segParsedIds f.segments)

/-- The identifiers actually accepted into the Job: the segment identifiers
of the accepted FileRecords, in acceptance order (the hash input the spec
describes). -/
def acceptedIds (n : Nzo) : List ArticleId :=
  n.files.flatMap (fun f => f.segments.map (fun e => e.1))

/-- A minimal raw input whose line view the streaming parser accepts and
whose tree view is the empty document. -/
def c1Raw : RawData :=
  { lines := [.xmlDecl (some "utf-8"), .nzbTag, .endNzb],
    tree := some ⟨[], []⟩ }

/-- A document with a single file whose only segment has declared size 0:
the segment is rejected as bad, yet its identifier is fed to the hash. -/
def c2Doc : Doc :=
  { metas := [],
    files := [{ subject := some "s", date := some 5, groups := [],
                segments := [⟨some "A", some 0, some 1⟩] }] }

/-- A line sequence on which the streaming parser accepts one file, skips an
exact duplicate of it (whose side-artifact is persisted on creation), and
then hits a fatal unrecognized line. -/
def c7Lines : List Line :=
  [.xmlDecl (some "utf-8"), .nzbTag,
   .fileLine (some "a") none, .segLine (some 100) (some 1) "A", .fileEnd,
   .fileLine (some "a") none, .segLine (some 100) (some 1) "A", .fileEnd,
   .unrecognized]

/-- An archive member whose name ends in `.nzb`, whose read succeeds with
non-empty data, and whose ingestion raises `TypeError` (already-queued
duplicate), producing no job. -/
def c10Member : Member := ⟨true, some (true, .dupTypeError)⟩

/-- The well-formed document of spec §8: one file, two segments
(part 1, id "A", 100 bytes; part 2, id "B", 200 bytes), one group, one meta. -/
def wfDoc : Doc :=
  { metas := [⟨some "password", some "p"⟩],
    files := [{ subject := some "subj", date := some 10,
                groups := [some "a.b"],
                segments := [⟨some "A", some 100, some 1⟩,
                             ⟨some "B", some 200, some 2⟩] }] }

/-! ## Basic lemmas -/

theorem runBody_nil (t : ℚ) (st : SState) : runBody t [] st = .ok st := rfl

theorem runBody_cons_cont (t : ℚ) (l : Line) (ls : List Line) (st s : SState)
    (h : bodyStep t st l = .cont s) : runBody t (l :: ls) st = runBody t ls s := by
  simp [runBody, h]

theorem runBody_cons_done (t : ℚ) (l : Line) (ls : List Line) (st s : SState)
    (h : bodyStep t st l = .done s) : runBody t (l :: ls) st = .ok s := by
  simp [runBody, h]

theorem runBody_cons_fatal (t : ℚ) (l : Line) (ls : List Line) (st s : SState)
    (h : bodyStep t st l = .fatal s) : runBody t (l :: ls) st = .error s := by
  simp [runBody, h]

/-! ## Claim C1: which parser is attempted first -/

/-- Claim C1 (corrected): the claim as stated is false: on an input the
streaming parser accepts, the first (and only) parser attempted by
`nzbfile_parser` is the streaming regex parser, not the structured
element-tree parser. -/
theorem C1_counterexample :
    (nzbfile_parse 0 c1Raw emptyNzo).2 = [WhichParser.streaming] ∧
    ¬ ((nzbfile_parse 0 c1Raw emptyNzo).2.head? = some WhichParser.structured) := by
  decide

/-- Claim C1 (amended): `nzbfile_parser` always attempts the streaming
regex parser first; the structured element-tree parser is attempted exactly
when the streaming parser fails; and the document is rejected exactly when
the streaming parser fails and the element-tree parse also fails. -/
theorem C1_parser_order (t : ℚ) (raw : RawData) (n : Nzo) :
    (nzbfile_parse t raw n).2.head? = some WhichParser.streaming ∧
    (WhichParser.structured ∈ (nzbfile_parse t raw n).2 ↔
      (nzbfile_regex_parse t raw.lines n).1 = false) ∧
    ((nzbfile_parse t raw n).1 = none ↔
      ((nzbfile_regex_parse t raw.lines n).1 = false ∧ raw.tree = none)) := by
  unfold nzbfile_parse
  cases h : (nzbfile_regex_parse t raw.lines n).1 <;>
    cases htree : raw.tree <;> simp [h, htree]

/-! ## Claim C5: segment size sanity check -/

/-- Claim C5 (confirmed): in both parsers, a segment with a fresh part
number is added to the file's table and counted toward the file's bytes
exactly when `0 < size < 2^23`; outside that range the structured parser
skips it as bad (bumping the bad-article counter) and the streaming parser
raises; in particular sizes `0`, `-1` and `2^23` are rejected and `2^23 - 1`
is accepted. -/
theorem C5_size_sanity (t : ℚ) (id : ArticleId) (size num : Int)
    (stS : SegSt) (stT : SState) (acc : FileAcc)
    (hS : dbLookup stS.db num = none) (hT : dbLookup acc.db num = none)
    (hOpen : stT.openF = some acc) :
    (0 < size ∧ size < 8388608 →
      segStep stS ⟨some id, some size, some num⟩ =
        { stS with md5 := stS.md5 ++ [id],
                   db := stS.db ++ [(num, (id, size))],
                   fbytes := stS.fbytes + size } ∧
      bodyStep t stT (.segLine (some size) (some num) id) =
        .cont { stT with md5 := stT.md5 ++ [id],
                         openF := some ⟨acc.name, acc.ts,
                           acc.db ++ [(num, (id, size))], acc.fbytes + size⟩ }) ∧
    (¬ (0 < size ∧ size < 8388608) →
      segStep stS ⟨some id, some size, some num⟩ =
        { stS with md5 := stS.md5 ++ [id], nzo := bumpBad stS.nzo } ∧
      bodyStep t stT (.segLine (some size) (some num) id) =
        .fatal { stT with md5 := stT.md5 ++ [id] }) := by
  have hrange : (size ≤ 0 ∨ 8388608 ≤ size) ↔ ¬ (0 < size ∧ size < 8388608) := by
    omega
  constructor
  · intro h
    have hc : ¬ (size ≤ 0 ∨ 8388608 ≤ size) := by omega
    constructor
    · simp [segStep, hS, hc]
    · simp [bodyStep, hOpen, hT, hc]
  · intro h
    have hc : size ≤ 0 ∨ 8388608 ≤ size := by omega
    constructor
    · simp [segStep, hS, hc]
    · simp [bodyStep, hOpen, hT, hc]

/-- Witness for C5 at a concrete input: a fresh part number of size
`2^23 - 1` is accepted by both parsers' segment steps. -/
theorem C5_witness :
    segStep ⟨emptyNzo, [], [], 0⟩ ⟨some "A", some 8388607, some 1⟩ =
      { nzo := emptyNzo, md5 := ["A"], db := [(1, ("A", 8388607))],
        fbytes := 8388607 } ∧
    bodyStep 0 ⟨emptyNzo, [], 0, 0, some ⟨"s", 0, [], 0⟩⟩
        (.segLine (some 8388607) (some 1) "A") =
      .cont ⟨emptyNzo, ["A"], 0, 0, some ⟨"s", 0, [(1, ("A", 8388607))], 8388607⟩⟩ := by
  have h := C5_size_sanity 0 "A" 8388607 1 ⟨emptyNzo, [], [], 0⟩
      ⟨emptyNzo, [], 0, 0, some ⟨"s", 0, [], 0⟩⟩ ⟨"s", 0, [], 0⟩
      (by decide) (by decide) rfl
  exact h.1 (by omega)

/-! ## Claim C6: duplicate part numbers -/

/-- Claim C6 (confirmed): on a duplicate part number the structured parser
never aborts: the first-seen segment stays in the table, the file bytes are
unchanged, and the duplicate-article anomaly counter is bumped exactly when
the identifiers differ (a matching repeat is silently dropped); the
streaming parser raises on any duplicate part number, matching or not. -/
theorem C6_duplicate_parts (t : ℚ) (id id0 : ArticleId) (size sz0 num : Int)
    (stS : SegSt) (stT : SState) (acc : FileAcc)
    (hS : dbLookup stS.db num = some (id0, sz0))
    (hT : dbLookup acc.db num = some (id0, sz0))
    (hOpen : stT.openF = some acc) :
    segStep stS ⟨some id, some size, some num⟩ =
      { stS with md5 := stS.md5 ++ [id],
                 nzo := if id ≠ id0 then bumpDup stS.nzo else stS.nzo } ∧
    bodyStep t stT (.segLine (some size) (some num) id) =
      .fatal { stT with md5 := stT.md5 ++ [id] } := by
  constructor
  · by_cases hid : id = id0 <;> simp [segStep, hS, hid]
  · simp [bodyStep, hOpen, hT]

/-- Witness for C6 at a concrete input: part number 1 repeated with a
conflicting identifier bumps the structured parser's anomaly counter while
the streaming parser raises. -/
theorem C6_witness :
    segStep ⟨emptyNzo, [], [(1, ("A", 100))], 100⟩ ⟨some "B", some 100, some 1⟩ =
      { nzo := bumpDup emptyNzo, md5 := ["B"], db := [(1, ("A", 100))],
        fbytes := 100 } ∧
    bodyStep 0 ⟨emptyNzo, [], 0, 0, some ⟨"s", 0, [(1, ("A", 100))], 100⟩⟩
        (.segLine (some 100) (some 1) "B") =
      .fatal ⟨emptyNzo, ["B"], 0, 0, some ⟨"s", 0, [(1, ("A", 100))], 100⟩⟩ := by
  have h := C6_duplicate_parts 0 "B" "A" 100 100 1
      ⟨emptyNzo, [], [(1, ("A", 100))], 100⟩
      ⟨emptyNzo, [], 0, 0, some ⟨"s", 0, [(1, ("A", 100))], 100⟩⟩
      ⟨"s", 0, [(1, ("A", 100))], 100⟩ (by decide) (by decide) rfl
  refine ⟨?_, h.2⟩
  rw [h.1]
  decide

/-! ## Claim C2: what the dedup hash covers -/

theorem segStep_md5 (st : SegSt) (s : RawSegment) :
    (segStep st s).md5 = st.md5 ++ segParsedIds [s] := by
  rcases s with ⟨text, sbytes, snumber⟩
  rcases text with _ | id <;> rcases sbytes with _ | size <;>
    rcases snumber with _ | num <;> simp [segStep, segParsedIds]
  cases h : dbLookup st.db num <;> simp [h]
  · split <;> simp
  · split <;> simp

theorem foldl_segStep_md5 (segs : List RawSegment) (st : SegSt) :
    (segs.foldl segStep st).md5 = st.md5 ++ segParsedIds segs := by
  induction segs generalizing st with
  | nil => simp [segParsedIds]
  | cons s ss ih =>
    rw [List.foldl_cons, ih, segStep_md5]
    simp [segParsedIds, List.filterMap_cons]
    rcases s with ⟨text, sbytes, snumber⟩
    rcases text with _ | id <;> rcases sbytes with _ | size <;>
      rcases snumber with _ | num <;> simp

theorem fileStep_md5 (tNow : ℚ) (st : FoldSt) (f : RawFile) :
    (fileStep tNow st f).md5 = st.md5 ++ segParsedIds f.segments := by
  have h := foldl_segStep_md5 f.segments
    ⟨f.groups.foldl insertGroup st.nzo, st.md5, [], 0⟩
  unfold fileStep
  simp only [nzfValid, nzfHasId, ite_true]
  split
  · exact h
  · split
    · exact h
    · exact h

theorem foldl_fileStep_md5 (tNow : ℚ) (fs : List RawFile) (st : FoldSt) :
    (fs.foldl (fileStep tNow) st).md5 =
      st.md5 ++ fs.flatMap (fun f => segParsedIds f.segments) := by
  induction fs generalizing st with
  | nil => simp
  | cons f fs ih => rw [List.foldl_cons, ih, fileStep_md5]; simp

theorem structuredParse_md5 (tNow : ℚ) (d : Doc) (n : Nzo) :
    (structuredParse tNow d n).md5sum = some (allParsedIds d) := by
  unfold structuredParse finalizeJob
  simp [foldl_fileStep_md5, allParsedIds]

/-- Claim C2 (corrected): the claim as stated is false: on a document with
one file whose only segment has declared size 0, the accepted identifier
sequence is empty, yet the hash input is the rejected segment's identifier
(the MD5 update precedes the size and duplicate checks). -/
theorem C2_counterexample :
    (structuredParse 0 c2Doc emptyNzo).md5sum = some ["A"] ∧
    acceptedIds (structuredParse 0 c2Doc emptyNzo) = [] ∧
    some ["A"] ≠ some ([] : List ArticleId) := by decide

/-! ## Claim C3: the average timestamp over zero valid files -/

theorem insertGroup_files (n : Nzo) (g : Option String) :
    (insertGroup n g).files = n.files := by
  unfold insertGroup; split <;> rfl

theorem foldl_insertGroup_files (gs : List (Option String)) (n : Nzo) :
    (gs.foldl insertGroup n).files = n.files := by
  induction gs generalizing n with
  | nil => rfl
  | cons g gs ih => rw [List.foldl_cons, ih, insertGroup_files]

theorem segStep_nzo_files (st : SegSt) (s : RawSegment) :
    (segStep st s).nzo.files = st.nzo.files := by
  rcases s with ⟨text, sbytes, snumber⟩
  rcases text with _ | id <;> rcases sbytes with _ | size <;>
    rcases snumber with _ | num <;> simp [segStep]
  cases h : dbLookup st.db num <;> simp [h]
  · split <;> simp [bumpBad]
  · split <;> simp [bumpDup]

theorem foldl_segStep_nzo_files (segs : List RawSegment) (st : SegSt) :
    (segs.foldl segStep st).nzo.files = st.nzo.files := by
  induction segs generalizing st with
  | nil => rfl
  | cons s ss ih => rw [List.foldl_cons, ih, segStep_nzo_files]

theorem metaStep_files (n : Nzo) (m : RawMeta) :
    (metaStep n m).files = n.files := by
  rcases m with ⟨ty, tx⟩
  rcases ty with _ | ty <;> rcases tx with _ | tx <;>
    simp only [metaStep, appendMetaIf]
  split
  · split <;> rfl
  · rfl

theorem foldl_metaStep_files (ms : List RawMeta) (n : Nzo) :
    (ms.foldl metaStep n).files = n.files := by
  induction ms generalizing n with
  | nil => rfl
  | cons m ms ih => rw [List.foldl_cons, ih, metaStep_files]

theorem fileStep_pres (tNow : ℚ) (st : FoldSt) (f : RawFile)
    (h1 : st.nzo.files.length = st.valid) (h2 : st.valid = 0 → st.avg = 0) :
    (fileStep tNow st f).nzo.files.length = (fileStep tNow st f).valid ∧
    ((fileStep tNow st f).valid = 0 → (fileStep tNow st f).avg = 0) := by
  have hfiles : ((f.segments.foldl segStep
      ⟨f.groups.foldl insertGroup st.nzo, st.md5, [], 0⟩).nzo).files
      = st.nzo.files := by
    rw [foldl_segStep_nzo_files]; exact foldl_insertGroup_files _ _
  unfold fileStep
  simp only [nzfValid, nzfHasId, ite_true]
  split
  · exact ⟨by simpa [mkNzbFile, hfiles], h2⟩
  · split
    · refine ⟨?_, ?_⟩
      · simp [acceptFile, mkNzbFile, hfiles, h1]
      · intro h; simp at h
    · exact ⟨by simpa [removeData, mkNzbFile, hfiles], h2⟩

theorem foldl_fileStep_pres (tNow : ℚ) (fs : List RawFile) (st : FoldSt)
    (h1 : st.nzo.files.length = st.valid) (h2 : st.valid = 0 → st.avg = 0) :
    (fs.foldl (fileStep tNow) st).nzo.files.length =
      (fs.foldl (fileStep tNow) st).valid ∧
    ((fs.foldl (fileStep tNow) st).valid = 0 →
      (fs.foldl (fileStep tNow) st).avg = 0) := by
  induction fs generalizing st with
  | nil => exact ⟨h1, h2⟩
  | cons f fs ih =>
    rw [List.foldl_cons]
    have h := fileStep_pres tNow st f h1 h2
    exact ih _ h.1 h.2

theorem finalizeJob_avg_zero (n : Nzo) (md5 : List String) :
    (finalizeJob n md5 0 0).avg_stamp = 0 := by
  simp [finalizeJob]

/-- Claim C3 (corrected): the claim as stated is false: on a document with
zero valid files, ingested at current time 1000, the average timestamp is 0
(the Unix epoch), not the current time. -/
theorem C3_counterexample :
    (structuredParse 1000 (Doc.mk [] []) emptyNzo).files = [] ∧
    (structuredParse 1000 (Doc.mk [] []) emptyNzo).avg_stamp = 0 ∧
    (structuredParse 1000 (Doc.mk [] []) emptyNzo).avg_stamp ≠ 1000 := by
  have hav : (structuredParse 1000 (Doc.mk [] []) emptyNzo).avg_stamp = 0 := by
    simp [structuredParse, finalizeJob]
  exact ⟨rfl, hav, by rw [hav]; norm_num⟩

theorem insertGroup_proj (n : Nzo) (g : Option String) :
    (insertGroup n g).files = n.files ∧ (insertGroup n g).persisted = n.persisted := by
  unfold insertGroup; split <;> exact ⟨rfl, rfl⟩

theorem appendMetaIf_proj (n : Nzo) (ty tx : String) :
    (appendMetaIf n ty tx).files = n.files ∧
    (appendMetaIf n ty tx).persisted = n.persisted := by
  unfold appendMetaIf
  split
  · split <;> exact ⟨rfl, rfl⟩
  · exact ⟨rfl, rfl⟩

theorem bodyStep_pres (t : ℚ) (l : Line) (st s : SState)
    (hc : bodyStep t st l = .cont s ∨ bodyStep t st l = .done s)
    (h1 : st.nzo.files.length = st.valid) (h2 : st.valid = 0 → st.avg = 0) :
    s.nzo.files.length = s.valid ∧ (s.valid = 0 → s.avg = 0) := by
  cases l with
  | segLine sbytes snumber text =>
    cases hof : st.openF with
    | none => rcases hc with hc | hc <;> simp [bodyStep, hof] at hc
    | some acc =>
      cases sbytes with
      | none => rcases hc with hc | hc <;> simp [bodyStep, hof] at hc
      | some size =>
        cases snumber with
        | none => rcases hc with hc | hc <;> simp [bodyStep, hof] at hc
        | some num =>
          cases hdb : dbLookup acc.db num with
          | some p => rcases hc with hc | hc <;> simp [bodyStep, hof, hdb] at hc
          | none =>
            by_cases hbad : size ≤ 0 ∨ 8388608 ≤ size
            · rcases hc with hc | hc <;> simp [bodyStep, hof, hdb, hbad] at hc
            · rcases hc with hc | hc <;> simp [bodyStep, hof, hdb, hbad] at hc
              subst hc
              exact ⟨h1, h2⟩
  | fileEnd =>
    cases hof : st.openF with
    | none => rcases hc with hc | hc <;> simp [bodyStep, hof] at hc
    | some acc =>
      have hunf : bodyStep t st .fileEnd =
          (if acc.name = "" then .fatal { st with openF := none }
           else
             let built := mkNzbFile st.nzo acc.ts acc.name (dbSorted acc.db) acc.fbytes
             if built.2.files.any (nzfEq built.1) then
               .cont { st with nzo := built.2, openF := none }
             else if nzfValid ∧ nzfHasId then
               .cont { st with nzo := acceptFile built.2 built.1,
                               avg := st.avg + acc.ts, valid := st.valid + 1,
                               openF := none }
             else .fatal { st with nzo := built.2, openF := none }) := by
        simp only [bodyStep, hof]
      rcases hc with hc | hc <;> rw [hunf] at hc <;> split at hc <;>
        try simp at hc
      · split at hc <;> try split at hc
        · rw [show s = { st with
              nzo := (mkNzbFile st.nzo acc.ts acc.name (dbSorted acc.db) acc.fbytes).2,
              openF := none } from by injection hc with hh; exact hh.symm]
          exact ⟨by simp [mkNzbFile, h1], h2⟩
        · rw [show s = { st with
              nzo := acceptFile (mkNzbFile st.nzo acc.ts acc.name (dbSorted acc.db) acc.fbytes).2
                (mkNzbFile st.nzo acc.ts acc.name (dbSorted acc.db) acc.fbytes).1,
              avg := st.avg + acc.ts, valid := st.valid + 1,
              openF := none } from by injection hc with hh; exact hh.symm]
          refine ⟨by simp [acceptFile, mkNzbFile, h1], ?_⟩
          intro h; simp at h
        · simp at hc
      · split at hc <;> try split at hc
        all_goals simp at hc
  | ignorable =>
    rcases hc with hc | hc <;> simp [bodyStep] at hc
    subst hc; exact ⟨h1, h2⟩
  | fileLine subj date =>
    cases hof : st.openF with
    | some acc => rcases hc with hc | hc <;> simp [bodyStep, hof] at hc
    | none =>
      rcases subj with _ | sname <;> rcases hc with hc | hc <;>
        simp [bodyStep, hof] at hc
      subst hc; exact ⟨h1, h2⟩
  | groupLine g =>
    rcases hc with hc | hc <;> simp [bodyStep] at hc
    subst hc
    exact ⟨by rw [(insertGroup_proj st.nzo (some g)).1]; exact h1, h2⟩
  | metaLine ty tx =>
    rcases hc with hc | hc <;> simp [bodyStep] at hc
    subst hc
    exact ⟨by rw [(appendMetaIf_proj st.nzo ty tx).1]; exact h1, h2⟩
  | blank =>
    rcases hc with hc | hc <;> simp [bodyStep] at hc
    subst hc; exact ⟨h1, h2⟩
  | wsLine =>
    rcases hc with hc | hc <;> simp [bodyStep] at hc
    subst hc; exact ⟨h1, h2⟩
  | xmlDecl e => rcases hc with hc | hc <;> simp [bodyStep] at hc
  | nzbTag =>
    rcases hc with hc | hc <;> simp [bodyStep] at hc
    subst hc; exact ⟨h1, h2⟩
  | endNzb =>
    cases hof : st.openF with
    | some acc => rcases hc with hc | hc <;> simp [bodyStep, hof] at hc
    | none =>
      rcases hc with hc | hc <;> simp [bodyStep, hof] at hc
      subst hc; exact ⟨h1, h2⟩
  | unrecognized => rcases hc with hc | hc <;> simp [bodyStep] at hc

theorem runBody_ok_pres (t : ℚ) (ls : List Line) (st fin : SState)
    (h : runBody t ls st = .ok fin)
    (h1 : st.nzo.files.length = st.valid) (h2 : st.valid = 0 → st.avg = 0) :
    fin.nzo.files.length = fin.valid ∧ (fin.valid = 0 → fin.avg = 0) := by
  induction ls generalizing st with
  | nil =>
    simp [runBody] at h
    subst h; exact ⟨h1, h2⟩
  | cons l ls ih =>
    unfold runBody at h
    cases hstep : bodyStep t st l with
    | fatal s => rw [hstep] at h; exact absurd h (by simp)
    | done s =>
      rw [hstep] at h
      simp at h
      subst h
      exact bodyStep_pres t l st s (Or.inr hstep) h1 h2
    | cont s =>
      rw [hstep] at h
      simp at h
      have hp := bodyStep_pres t l st s (Or.inl hstep) h1 h2
      exact ih s h hp.1 hp.2

theorem finalizeJob_files (n : Nzo) (md5 : List String) (avg : ℚ) (valid : Nat) :
    (finalizeJob n md5 avg valid).files = n.files := rfl

theorem regex_parse_ok_shape (t : ℚ) (ls : List Line) (n : Nzo)
    (h : (nzbfile_regex_parse t ls n).1 = true) :
    ∃ rest st, headerScan ls 0 false = some (rest, true) ∧
      runBody t rest ⟨n, [], 0, 0, none⟩ = Except.ok st ∧
      (nzbfile_regex_parse t ls n).2 = finalizeJob st.nzo st.md5 st.avg st.valid := by
  unfold nzbfile_regex_parse at h ⊢
  cases hh : headerScan ls 0 false with
  | none => simp_all
  | some p =>
    rcases p with ⟨rest, enc⟩
    cases enc with
    | false => simp_all
    | true =>
      simp only [if_true, eq_self_iff_true] at h ⊢
      cases hr : runBody t rest ⟨n, [], 0, 0, none⟩ with
      | error st => simp_all
      | ok st =>
        refine ⟨rest, st, rfl, hr, ?_⟩
        simp_all

theorem regex_parse_fail_shape (t : ℚ) (ls : List Line) (n : Nzo)
    (h : (nzbfile_regex_parse t ls n).1 = false) :
    ∃ m : Nzo, (nzbfile_regex_parse t ls n).2 = rollbackNzo m := by
  unfold nzbfile_regex_parse at h ⊢
  cases hh : headerScan ls 0 false with
  | none => exact ⟨n, by simp_all⟩
  | some p =>
    rcases p with ⟨rest, enc⟩
    cases enc with
    | false => exact ⟨n, by simp_all⟩
    | true =>
      simp only [if_true, eq_self_iff_true] at h ⊢
      cases hr : runBody t rest ⟨n, [], 0, 0, none⟩ with
      | error st => exact ⟨st.nzo, by simp_all⟩
      | ok st => simp_all

/-- Claim C3 (amended): on a document that parses but yields zero valid
files, both parsers set the Job's average timestamp to 0 (the Unix epoch):
the sum 0 of timestamps is divided by `max(1, 0) = 1`, so finalization never
divides by zero, but the fallback value is the epoch, not the current time. -/
theorem C3_average_timestamp (t : ℚ) (d : Doc) (ls : List Line) :
    ((structuredParse t d emptyNzo).files = [] →
      (structuredParse t d emptyNzo).avg_stamp = 0) ∧
    ((nzbfile_regex_parse t ls emptyNzo).1 = true →
      (nzbfile_regex_parse t ls emptyNzo).2.files = [] →
      (nzbfile_regex_parse t ls emptyNzo).2.avg_stamp = 0) := by
  constructor
  · intro hfiles
    simp only [structuredParse] at hfiles ⊢
    rw [finalizeJob_files] at hfiles
    have hbase1 : ((d.metas.foldl metaStep emptyNzo)).files.length = 0 := by
      rw [foldl_metaStep_files]; rfl
    have hp := foldl_fileStep_pres t d.files
      ⟨d.metas.foldl metaStep emptyNzo, [], 0, 0, 0⟩ hbase1 (fun _ => rfl)
    have hvalid : (d.files.foldl (fileStep t)
        ⟨d.metas.foldl metaStep emptyNzo, [], 0, 0, 0⟩).valid = 0 := by
      rw [← hp.1, hfiles]; rfl
    have havg := hp.2 hvalid
    rw [havg, hvalid]
    exact finalizeJob_avg_zero _ _
  · intro hok hfiles
    obtain ⟨rest, st, hh, hr, heq⟩ := regex_parse_ok_shape t ls emptyNzo hok
    rw [heq] at hfiles ⊢
    have hp := runBody_ok_pres t rest ⟨emptyNzo, [], 0, 0, none⟩ st hr rfl
      (fun _ => rfl)
    rw [finalizeJob_files] at hfiles
    have hvalid : st.valid = 0 := by rw [← hp.1, hfiles]; rfl
    have havg := hp.2 hvalid
    rw [havg, hvalid]
    exact finalizeJob_avg_zero _ _

/-- Witness for C3 at a concrete input: the empty document has zero valid
files under both parsers and its average timestamp is 0. -/
theorem C3_witness :
    (structuredParse 7 (Doc.mk [] []) emptyNzo).files = [] ∧
    (structuredParse 7 (Doc.mk [] []) emptyNzo).avg_stamp = 0 ∧
    (nzbfile_regex_parse 7 [Line.xmlDecl (some "utf-8"), Line.nzbTag,
      Line.endNzb] emptyNzo).1 = true ∧
    (nzbfile_regex_parse 7 [Line.xmlDecl (some "utf-8"), Line.nzbTag,
      Line.endNzb] emptyNzo).2.files = [] ∧
    (nzbfile_regex_parse 7 [Line.xmlDecl (some "utf-8"), Line.nzbTag,
      Line.endNzb] emptyNzo).2.avg_stamp = 0 :=
  ⟨rfl, (C3_average_timestamp 7 (Doc.mk [] []) []).1 rfl, by decide, rfl,
   (C3_average_timestamp 7 (Doc.mk [] [])
     [Line.xmlDecl (some "utf-8"), Line.nzbTag, Line.endNzb]).2
     (by decide) rfl⟩

/-! ## Claim C7: rollback on streaming-parser failure -/

theorem foldl_removeData_persisted_sub (fs : List NzbFile) (m : Nzo) :
    ∀ x, x ∈ (fs.foldl (fun a f => removeData a f.id) m).persisted →
      x ∈ m.persisted := by
  induction fs generalizing m with
  | nil => intro x hx; exact hx
  | cons g gs ih =>
    intro x hx
    have hx2 := ih (removeData m g.id) x hx
    simp [removeData] at hx2
    exact hx2.1

theorem foldl_removeData_removes (fs : List NzbFile) (m : Nzo) :
    ∀ f ∈ fs, f.id ∉ (fs.foldl (fun a f => removeData a f.id) m).persisted := by
  induction fs generalizing m with
  | nil => intro f hf; exact absurd hf (by simp)
  | cons g gs ih =>
    intro f hf
    rcases List.mem_cons.mp hf with hfg | hftl
    · subst hfg
      rw [List.foldl_cons]
      intro hmem
      have hsub := foldl_removeData_persisted_sub gs (removeData m f.id) f.id hmem
      simp [removeData] at hsub
    · rw [List.foldl_cons]
      exact ih (removeData m g.id) f hftl

theorem rollbackNzo_spec (n : Nzo) :
    (rollbackNzo n).files = [] ∧ (rollbackNzo n).files_table = [] ∧
    (rollbackNzo n).bytes = 0 ∧ (rollbackNzo n).bytes_par2 = 0 ∧
    (rollbackNzo n).first_articles = [] ∧
    (rollbackNzo n).first_articles_count = 0 ∧
    ∀ f ∈ n.files, f.id ∉ (rollbackNzo n).persisted := by
  refine ⟨rfl, rfl, rfl, rfl, rfl, rfl, ?_⟩
  intro f hf
  exact foldl_removeData_removes n.files n f hf

/-- Claim C7 (amended): when the streaming fallback parser fails, the Job is
rolled back: all FileRecords and the file table are dropped, the byte,
par2-byte and first-article counters are cleared, and the persisted
side-artifact of every FileRecord that was attached to the Job at failure
time is released.  Side-artifacts of records created during the failed parse
but never attached (exact-duplicate file entries that were skipped) are not
released. -/
theorem C7_rollback (t : ℚ) (ls : List Line) (n : Nzo)
    (h : (nzbfile_regex_parse t ls n).1 = false) :
    (nzbfile_regex_parse t ls n).2.files = [] ∧
    (nzbfile_regex_parse t ls n).2.files_table = [] ∧
    (nzbfile_regex_parse t ls n).2.bytes = 0 ∧
    (nzbfile_regex_parse t ls n).2.bytes_par2 = 0 ∧
    (nzbfile_regex_parse t ls n).2.first_articles = [] ∧
    (nzbfile_regex_parse t ls n).2.first_articles_count = 0 ∧
    ∃ m : Nzo, (nzbfile_regex_parse t ls n).2 = rollbackNzo m ∧
      ∀ f ∈ m.files, f.id ∉ (nzbfile_regex_parse t ls n).2.persisted := by
  obtain ⟨m, hm⟩ := regex_parse_fail_shape t ls n h
  rw [hm]
  have hs := rollbackNzo_spec m
  exact ⟨hs.1, hs.2.1, hs.2.2.1, hs.2.2.2.1, hs.2.2.2.2.1, hs.2.2.2.2.2.1,
    m, rfl, hs.2.2.2.2.2.2⟩

/-- Witness for C7 at a concrete input: the empty input fails the streaming
parser and the returned Job is empty. -/
theorem C7_witness :
    (nzbfile_regex_parse 0 ([] : List Line) emptyNzo).1 = false ∧
    ((nzbfile_regex_parse 0 ([] : List Line) emptyNzo).2.files = [] ∧
     (nzbfile_regex_parse 0 ([] : List Line) emptyNzo).2.files_table = [] ∧
     (nzbfile_regex_parse 0 ([] : List Line) emptyNzo).2.bytes = 0 ∧
     (nzbfile_regex_parse 0 ([] : List Line) emptyNzo).2.bytes_par2 = 0 ∧
     (nzbfile_regex_parse 0 ([] : List Line) emptyNzo).2.first_articles = [] ∧
     (nzbfile_regex_parse 0 ([] : List Line) emptyNzo).2.first_articles_count = 0 ∧
     ∃ m : Nzo, (nzbfile_regex_parse 0 ([] : List Line) emptyNzo).2 = rollbackNzo m ∧
       ∀ f ∈ m.files, f.id ∉ (nzbfile_regex_parse 0 ([] : List Line) emptyNzo).2.persisted) :=
  ⟨rfl, C7_rollback 0 [] emptyNzo rfl⟩

/-- Claim C7 (corrected): the claim as stated is false: on a failing parse
that had accepted one file and then skipped an exact duplicate of it, the
duplicate record's side-artifact (persisted on creation) is still persisted
after the rollback, so not every artifact created during the failed parse is
released. -/
theorem C7_counterexample :
    (nzbfile_regex_parse 0 c7Lines emptyNzo).1 = false ∧
    (nzbfile_regex_parse 0 c7Lines emptyNzo).2.persisted = [1] ∧
    ([1] : List Nat) ≠ [] := by decide

/-! ## Claims C8, C9: single-document orchestration -/

theorem pyFind_ge_neg_one (hay pat : List Char) : -1 ≤ pyFind hay pat := by
  induction hay with
  | nil => unfold pyFind; split <;> omega
  | cons c rest ih =>
    unfold pyFind
    split
    · omega
    · split
      · omega
      · omega

theorem pyFind_eq_neg_one_iff (hay pat : List Char) :
    pyFind hay pat = -1 ↔ occursIn hay pat = false := by
  induction hay with
  | nil =>
    unfold pyFind occursIn
    split <;> simp_all
  | cons c rest ih =>
    unfold pyFind occursIn
    have hge := pyFind_ge_neg_one rest pat
    cases hp : pat.isPrefixOf (c :: rest) with
    | true => simp [hp]
    | false =>
      simp only [hp, Bool.false_eq_true, if_false, Bool.false_or]
      by_cases hr : pyFind rest pat = -1
      · rw [if_pos hr]
        simp only [true_iff, eq_self_iff_true]
        exact ih.mp hr
      · rw [if_neg hr]
        rw [← ih]
        constructor
        · intro h; omega
        · intro h; omega

theorem pyFind_nonneg_iff (hay pat : List Char) :
    0 ≤ pyFind hay pat ↔ occursIn hay pat = true := by
  have hge := pyFind_ge_neg_one hay pat
  have hiff := pyFind_eq_neg_one_iff hay pat
  constructor
  · intro h
    cases hocc : occursIn hay pat
    · rw [← hiff] at hocc; omega
    · rfl
  · intro h
    rcases lt_or_le (pyFind hay pat) 0 with hlt | hle
    · have : pyFind hay pat = -1 := by omega
      rw [hiff] at this; simp_all
    · exact hle

/-- Claim C9 (confirmed): when the job construction fails with neither the
duplicate nor the empty classification (neither parser produced a valid
document), the returned status is `-2` (retryable) exactly when the decoded
text contains the start tag `<nzb` but not the end tag `</nzb`, and `-1`
(error) otherwise. -/
theorem C9_truncation_heuristic (data : List Char) (keep : Bool)
    (nzoId : Option Nat) (qid : Nat) :
    ((process_single_nzb true .otherError data keep nzoId qid).status = -2 ↔
      (occursIn data "<nzb".toList = true ∧
       occursIn data "</nzb".toList = false)) ∧
    ((process_single_nzb true .otherError data keep nzoId qid).status = -2 ∨
     (process_single_nzb true .otherError data keep nzoId qid).status = -1) := by
  have hopen := pyFind_nonneg_iff data "<nzb".toList
  have hclose := pyFind_eq_neg_one_iff data "</nzb".toList
  have hgeclose := pyFind_ge_neg_one data "</nzb".toList
  have hred : process_single_nzb true .otherError data keep nzoId qid =
      (if pyFind data "<nzb".toList ≥ 0 ∧ 0 > pyFind data "</nzb".toList then
        ⟨-2, [], false, false⟩ else ⟨-1, [], false, false⟩) := by
    simp [process_single_nzb]
  rw [hred]
  by_cases hcond : pyFind data "<nzb".toList ≥ 0 ∧ 0 > pyFind data "</nzb".toList
  · rw [if_pos hcond]
    have hcl : occursIn data "</nzb".toList = false := by
      apply hclose.mp
      omega
    exact ⟨⟨fun _ => ⟨hopen.mp hcond.1, hcl⟩, fun _ => rfl⟩, Or.inl rfl⟩
  · rw [if_neg hcond]
    constructor
    · constructor
      · intro hcontra
        exact absurd hcontra (by decide)
      · rintro ⟨h1, h2⟩
        exfalso
        apply hcond
        have ho := hopen.mpr h1
        have h3 : pyFind data "</nzb".toList = -1 := hclose.mpr h2
        exact ⟨by omega, by omega⟩
    · exact Or.inr rfl

/-- Claim C8 (corrected): the claim as stated is false: an already-queued
duplicate (`TypeError`) returns status 0 (Ok), not the Ignore status 1; an
empty document (`ValueError`) returns status 1 but returns before the
disposal step, leaving the originating file in place even when the caller
asked for removal (`keep = False`). -/
theorem C8_counterexample :
    ¬ ((process_single_nzb true CtorOutcome.dupTypeError [] false none 0).status = 1 ∧
       (process_single_nzb true CtorOutcome.dupTypeError [] false none 0).removeAttempted = true) ∧
    ¬ ((process_single_nzb true CtorOutcome.emptyValueError [] false none 0).status = 1 ∧
       (process_single_nzb true CtorOutcome.emptyValueError [] false none 0).removeAttempted = true) := by
  decide

/-- Claim C8 (amended): an empty document (`ValueError`) makes
`process_single_nzb` return status 1 immediately, with no job ids and
without touching the originating file; an already-queued duplicate
(`TypeError`) makes it return status 0 with no job ids, after removing any
pending future job and attempting disposal of the originating file exactly
when the caller's keep flag is unset. -/
theorem C8_empty_and_duplicate (data : List Char) (keep : Bool)
    (nzoId : Option Nat) (qid : Nat) :
    process_single_nzb true .emptyValueError data keep nzoId qid =
      ⟨1, [], false, false⟩ ∧
    process_single_nzb true .dupTypeError data keep nzoId qid =
      ⟨0, [], !keep, nzoId.isSome⟩ := by
  constructor <;> simp [process_single_nzb]

/-! ## Claim C10: archive ingestion status -/

theorem archiveLoop_fst_eq_zero (ms : List Member) (ids : List Nat) (q : Nat) :
    ((archiveLoop ms ids q).1 = 0 ↔
      ∀ m ∈ ms, m.isNzb = true → m.read ≠ none) := by
  induction ms generalizing ids q with
  | nil => simp [archiveLoop]
  | cons m ms ih =>
    cases hnzb : m.isNzb with
    | false => simp [archiveLoop, hnzb, ih ids q]
    | true =>
      cases hread : m.read with
      | none => simp [archiveLoop, hnzb, hread]
      | some p =>
        rcases p with ⟨ne, ctor⟩
        cases ne with
        | false => simp [archiveLoop, hnzb, hread, ih ids q]
        | true =>
          cases ctor <;> simp [archiveLoop, hnzb, hread, ih]

/-- Claim C10 (corrected): the claim as stated is false: an archive whose
single `.nzb` member reads fine but is an already-queued duplicate produces
no job, yet the overall status is still 0 (Ok). -/
theorem C10_counterexample :
    process_nzb_archive_file 0 [c10Member] = (0, []) ∧
    ¬ (((process_nzb_archive_file 0 [c10Member]).1 = 0) ↔
        (process_nzb_archive_file 0 [c10Member]).2 ≠ []) := by decide

/-- Claim C10 (amended): the archive status is 0 (Ok) exactly when the
archive itself opened, at least one member name ends in `.nzb`, and every
`.nzb` member could be read — regardless of whether any member actually
produced a job; a non-zero `is_archive` status is returned unchanged with no
job ids. -/
theorem C10_archive_status (archStatus : Int) (members : List Member) :
    ((process_nzb_archive_file archStatus members).1 = 0 ↔
      (archStatus = 0 ∧ (∃ m ∈ members, m.isNzb = true) ∧
        ∀ m ∈ members, m.isNzb = true → m.read ≠ none)) ∧
    (archStatus ≠ 0 → process_nzb_archive_file archStatus members =
      (archStatus, [])) := by
  by_cases ha : archStatus = 0
  · subst ha
    constructor
    · unfold process_nzb_archive_file
      simp only [ne_eq, not_true_eq_false, if_false, ite_not]
      by_cases hm : members.any (fun m => m.isNzb) = true
      · rw [if_pos hm] at *
        rw [archiveLoop_fst_eq_zero]
        simp only [List.any_eq_true] at hm
        simp [hm]
      · rw [if_neg hm]
        simp only [List.any_eq_true] at hm
        simp [hm]
    · intro h; exact absurd rfl h
  · constructor
    · unfold process_nzb_archive_file
      rw [if_pos ha]
      simp [ha]
    · intro _
      unfold process_nzb_archive_file
      rw [if_pos ha]

/-- Witness for C10 at a concrete input: a failed `is_archive` status is
propagated unchanged. -/
theorem C10_witness :
    (5 : Int) ≠ 0 ∧ process_nzb_archive_file 5 [] = (5, []) :=
  ⟨by decide, (C10_archive_status 5 []).2 (by decide)⟩

/-! ## Claim C4: the two parsers agree on well-formed documents

The streaming machine, run over the rendered lines of a well-formed
document, is traced against the structured parser's folds phase by phase:
meta lines, then per file the open line, group lines, segment lines and the
close line, then the `</nzb>` line. -/

theorem metaStep_eq_appendMetaIf (n : Nzo) (m : RawMeta) :
    appendMetaIf n (m.type.getD "") (m.text.getD "") = metaStep n m := by
  rcases m with ⟨ty, tx⟩
  rcases ty with _ | ty <;> rcases tx with _ | tx <;>
    simp [metaStep, appendMetaIf]

theorem runBody_metas (t : ℚ) (ms : List RawMeta) (rest : List Line)
    (nzo : Nzo) (md5 : List String) (avg : ℚ) (valid : Nat)
    (opf : Option FileAcc) :
    runBody t (ms.map renderMeta ++ rest) ⟨nzo, md5, avg, valid, opf⟩ =
      runBody t rest ⟨ms.foldl metaStep nzo, md5, avg, valid, opf⟩ := by
  induction ms generalizing nzo with
  | nil => simp
  | cons m ms ih =>
    have hstep : bodyStep t ⟨nzo, md5, avg, valid, opf⟩ (renderMeta m) =
        .cont ⟨metaStep nzo m, md5, avg, valid, opf⟩ := by
      simp [renderMeta, bodyStep, metaStep_eq_appendMetaIf]
    rw [List.map_cons, List.cons_append, runBody_cons_cont t _ _ _ _ hstep,
      List.foldl_cons]
    exact ih (metaStep nzo m)

theorem runBody_groups (t : ℚ) (gs : List (Option String)) (rest : List Line)
    (nzo : Nzo) (md5 : List String) (avg : ℚ) (valid : Nat)
    (opf : Option FileAcc) (hwf : ∀ g ∈ gs, g.isSome) :
    runBody t (gs.map renderGroup ++ rest) ⟨nzo, md5, avg, valid, opf⟩ =
      runBody t rest ⟨gs.foldl insertGroup nzo, md5, avg, valid, opf⟩ := by
  induction gs generalizing nzo with
  | nil => simp
  | cons g gs ih =>
    obtain ⟨s, hs⟩ := Option.isSome_iff_exists.mp (hwf g (List.mem_cons_self g gs))
    subst hs
    have hstep : bodyStep t ⟨nzo, md5, avg, valid, opf⟩ (renderGroup (some s)) =
        .cont ⟨insertGroup nzo (some s), md5, avg, valid, opf⟩ := by
      simp [renderGroup, bodyStep]
    rw [List.map_cons, List.cons_append, runBody_cons_cont t _ _ _ _ hstep,
      List.foldl_cons]
    exact ih (insertGroup nzo (some s)) (fun g hg => hwf g (List.mem_cons_of_mem _ hg))

theorem runBody_segs_ok (t : ℚ) (segs : List RawSegment) (rest : List Line)
    (nzo : Nzo) (md5 : List String) (avg : ℚ) (valid : Nat) (acc : FileAcc)
    (fin : SState)
    (hwf : ∀ s ∈ segs, s.text.isSome)
    (h : runBody t (segs.map renderSeg ++ rest) ⟨nzo, md5, avg, valid, some acc⟩ =
      .ok fin) :
    (segs.foldl segStep ⟨nzo, md5, acc.db, acc.fbytes⟩).nzo = nzo ∧
    runBody t rest ⟨nzo,
      (segs.foldl segStep ⟨nzo, md5, acc.db, acc.fbytes⟩).md5, avg, valid,
      some ⟨acc.name, acc.ts,
        (segs.foldl segStep ⟨nzo, md5, acc.db, acc.fbytes⟩).db,
        (segs.foldl segStep ⟨nzo, md5, acc.db, acc.fbytes⟩).fbytes⟩⟩ =
      .ok fin := by
  induction segs generalizing md5 acc with
  | nil => exact ⟨rfl, h⟩
  | cons s ss ih =>
    rcases s with ⟨stext, sbytes, snumber⟩
    have hid := hwf ⟨stext, sbytes, snumber⟩ (List.mem_cons_self _ _)
    cases stext with
    | none => simp at hid
    | some id =>
      cases sbytes with
      | none =>
        have hstep : bodyStep t ⟨nzo, md5, avg, valid, some acc⟩
            (renderSeg ⟨some id, none, snumber⟩) =
            .fatal ⟨nzo, md5, avg, valid, some acc⟩ := by
          simp [renderSeg, bodyStep]
        rw [List.map_cons, List.cons_append,
          runBody_cons_fatal t _ _ _ _ hstep] at h
        exact absurd h (by simp)
      | some size =>
        cases snumber with
        | none =>
          have hstep : bodyStep t ⟨nzo, md5, avg, valid, some acc⟩
              (renderSeg ⟨some id, some size, none⟩) =
              .fatal ⟨nzo, md5, avg, valid, some acc⟩ := by
            simp [renderSeg, bodyStep]
          rw [List.map_cons, List.cons_append,
            runBody_cons_fatal t _ _ _ _ hstep] at h
          exact absurd h (by simp)
        | some num =>
          cases hdb : dbLookup acc.db num with
          | some p =>
            have hstep : bodyStep t ⟨nzo, md5, avg, valid, some acc⟩
                (renderSeg ⟨some id, some size, some num⟩) =
                .fatal ⟨nzo, md5 ++ [id], avg, valid, some acc⟩ := by
              simp [renderSeg, bodyStep, hdb]
            rw [List.map_cons, List.cons_append,
              runBody_cons_fatal t _ _ _ _ hstep] at h
            exact absurd h (by simp)
          | none =>
            by_cases hbad : size ≤ 0 ∨ 8388608 ≤ size
            · have hstep : bodyStep t ⟨nzo, md5, avg, valid, some acc⟩
                  (renderSeg ⟨some id, some size, some num⟩) =
                  .fatal ⟨nzo, md5 ++ [id], avg, valid, some acc⟩ := by
                simp [renderSeg, bodyStep, hdb, hbad]
              rw [List.map_cons, List.cons_append,
                runBody_cons_fatal t _ _ _ _ hstep] at h
              exact absurd h (by simp)
            · have hstep : bodyStep t ⟨nzo, md5, avg, valid, some acc⟩
                  (renderSeg ⟨some id, some size, some num⟩) =
                  .cont ⟨nzo, md5 ++ [id], avg, valid,
                    some ⟨acc.name, acc.ts, acc.db ++ [(num, (id, size))],
                      acc.fbytes + size⟩⟩ := by
                simp [renderSeg, bodyStep, hdb, hbad]
              rw [List.map_cons, List.cons_append,
                runBody_cons_cont t _ _ _ _ hstep] at h
              have hseg : segStep ⟨nzo, md5, acc.db, acc.fbytes⟩
                  ⟨some id, some size, some num⟩ =
                  ⟨nzo, md5 ++ [id], acc.db ++ [(num, (id, size))],
                    acc.fbytes + size⟩ := by
                simp [segStep, hdb, hbad]
              rw [List.foldl_cons, hseg]
              exact ih (md5 ++ [id])
                ⟨acc.name, acc.ts, acc.db ++ [(num, (id, size))],
                  acc.fbytes + size⟩
                (fun s hs => hwf s (List.mem_cons_of_mem _ hs)) h

theorem bodyStep_fileEnd (t : ℚ) (st : SState) (acc : FileAcc)
    (hof : st.openF = some acc) (hname : acc.name ≠ "") :
    bodyStep t st .fileEnd =
      (if ((mkNzbFile st.nzo acc.ts acc.name (dbSorted acc.db) acc.fbytes).2.files.any
            (nzfEq (mkNzbFile st.nzo acc.ts acc.name (dbSorted acc.db) acc.fbytes).1)) then
        .cont { st with
          nzo := (mkNzbFile st.nzo acc.ts acc.name (dbSorted acc.db) acc.fbytes).2,
          openF := none }
      else
        .cont { st with
          nzo := acceptFile
            (mkNzbFile st.nzo acc.ts acc.name (dbSorted acc.db) acc.fbytes).2
            (mkNzbFile st.nzo acc.ts acc.name (dbSorted acc.db) acc.fbytes).1,
          avg := st.avg + acc.ts, valid := st.valid + 1, openF := none }) := by
  simp [bodyStep, hof, hname, nzfValid, nzfHasId]

theorem runBody_file_ok (t : ℚ) (f : RawFile) (rest : List Line)
    (nzo : Nzo) (md5 : List String) (avg : ℚ) (valid skipped : Nat)
    (fin : SState)
    (hwfg : ∀ g ∈ f.groups, g.isSome)
    (hwfs : ∀ s ∈ f.segments, s.text.isSome)
    (h : runBody t (renderFile f ++ rest) ⟨nzo, md5, avg, valid, none⟩ =
      .ok fin) :
    (fileStep t ⟨nzo, md5, avg, valid, skipped⟩ f).skipped = skipped ∧
    runBody t rest ⟨(fileStep t ⟨nzo, md5, avg, valid, skipped⟩ f).nzo,
      (fileStep t ⟨nzo, md5, avg, valid, skipped⟩ f).md5,
      (fileStep t ⟨nzo, md5, avg, valid, skipped⟩ f).avg,
      (fileStep t ⟨nzo, md5, avg, valid, skipped⟩ f).valid, none⟩ = .ok fin := by
  rcases f with ⟨subj, date, gs, segs⟩
  simp only [renderFile, List.cons_append] at h
  cases subj with
  | none =>
    have hstep : bodyStep t ⟨nzo, md5, avg, valid, none⟩ (.fileLine none date) =
        .fatal ⟨nzo, md5, avg, valid, none⟩ := by
      simp [bodyStep]
    rw [runBody_cons_fatal t _ _ _ _ hstep] at h
    exact absurd h (by simp)
  | some s =>
    have hstep1 : bodyStep t ⟨nzo, md5, avg, valid, none⟩
        (.fileLine (some s) date) =
        .cont ⟨nzo, md5, avg, valid, some ⟨s, tsOf t date, [], 0⟩⟩ := by
      simp [bodyStep]
    rw [runBody_cons_cont t _ _ _ _ hstep1, List.append_assoc,
      List.append_assoc] at h
    rw [runBody_groups t gs _ nzo md5 avg valid
      (some ⟨s, tsOf t date, [], 0⟩) hwfg] at h
    obtain ⟨hnzo, h2⟩ := runBody_segs_ok t segs ([Line.fileEnd] ++ rest)
      (gs.foldl insertGroup nzo) md5 avg valid ⟨s, tsOf t date, [], 0⟩ fin hwfs h
    rw [List.singleton_append] at h2
    by_cases hs : s = ""
    · have hstep2 : bodyStep t ⟨gs.foldl insertGroup nzo,
          (segs.foldl segStep ⟨gs.foldl insertGroup nzo, md5, [], 0⟩).md5, avg, valid,
          some ⟨s, tsOf t date,
            (segs.foldl segStep ⟨gs.foldl insertGroup nzo, md5, [], 0⟩).db,
            (segs.foldl segStep ⟨gs.foldl insertGroup nzo, md5, [], 0⟩).fbytes⟩⟩
          Line.fileEnd =
          .fatal ⟨gs.foldl insertGroup nzo,
            (segs.foldl segStep ⟨gs.foldl insertGroup nzo, md5, [], 0⟩).md5, avg, valid,
            none⟩ := by
        simp [bodyStep, hs]
      rw [runBody_cons_fatal t _ _ _ _ hstep2] at h2
      exact absurd h2 (by simp)
    · have hname : (FileAcc.mk s (tsOf t date)
          (segs.foldl segStep ⟨gs.foldl insertGroup nzo, md5, [], 0⟩).db
          (segs.foldl segStep ⟨gs.foldl insertGroup nzo, md5, [], 0⟩).fbytes).name ≠
          "" := hs
      have hstep2 := bodyStep_fileEnd t ⟨gs.foldl insertGroup nzo,
          (segs.foldl segStep ⟨gs.foldl insertGroup nzo, md5, [], 0⟩).md5, avg, valid,
          some ⟨s, tsOf t date,
            (segs.foldl segStep ⟨gs.foldl insertGroup nzo, md5, [], 0⟩).db,
            (segs.foldl segStep ⟨gs.foldl insertGroup nzo, md5, [], 0⟩).fbytes⟩⟩
          ⟨s, tsOf t date,
            (segs.foldl segStep ⟨gs.foldl insertGroup nzo, md5, [], 0⟩).db,
            (segs.foldl segStep ⟨gs.foldl insertGroup nzo, md5, [], 0⟩).fbytes⟩
          rfl hname
      have hfs : fileStep t ⟨nzo, md5, avg, valid, skipped⟩
          ⟨some s, date, gs, segs⟩ =
          (if ((mkNzbFile (gs.foldl insertGroup nzo) (tsOf t date) s
                (dbSorted (segs.foldl segStep
                  ⟨gs.foldl insertGroup nzo, md5, [], 0⟩).db)
                (segs.foldl segStep
                  ⟨gs.foldl insertGroup nzo, md5, [], 0⟩).fbytes).2.files.any
              (nzfEq (mkNzbFile (gs.foldl insertGroup nzo) (tsOf t date) s
                (dbSorted (segs.foldl segStep
                  ⟨gs.foldl insertGroup nzo, md5, [], 0⟩).db)
                (segs.foldl segStep
                  ⟨gs.foldl insertGroup nzo, md5, [], 0⟩).fbytes).1)) then
            ⟨(mkNzbFile (gs.foldl insertGroup nzo) (tsOf t date) s
                (dbSorted (segs.foldl segStep
                  ⟨gs.foldl insertGroup nzo, md5, [], 0⟩).db)
                (segs.foldl segStep
                  ⟨gs.foldl insertGroup nzo, md5, [], 0⟩).fbytes).2,
              (segs.foldl segStep ⟨gs.foldl insertGroup nzo, md5, [], 0⟩).md5,
              avg, valid, skipped⟩
          else
            ⟨acceptFile
                (mkNzbFile (gs.foldl insertGroup nzo) (tsOf t date) s
                  (dbSorted (segs.foldl segStep
                    ⟨gs.foldl insertGroup nzo, md5, [], 0⟩).db)
                  (segs.foldl segStep
                    ⟨gs.foldl insertGroup nzo, md5, [], 0⟩).fbytes).2
                (mkNzbFile (gs.foldl insertGroup nzo) (tsOf t date) s
                  (dbSorted (segs.foldl segStep
                    ⟨gs.foldl insertGroup nzo, md5, [], 0⟩).db)
                  (segs.foldl segStep
                    ⟨gs.foldl insertGroup nzo, md5, [], 0⟩).fbytes).1,
              (segs.foldl segStep ⟨gs.foldl insertGroup nzo, md5, [], 0⟩).md5,
              avg + tsOf t date, valid + 1, skipped⟩) := by
        simp only [fileStep, hnzo]
        simp [hs, nzfValid, nzfHasId]
      by_cases hdup : ((mkNzbFile (gs.foldl insertGroup nzo) (tsOf t date) s
            (dbSorted (segs.foldl segStep
              ⟨gs.foldl insertGroup nzo, md5, [], 0⟩).db)
            (segs.foldl segStep
              ⟨gs.foldl insertGroup nzo, md5, [], 0⟩).fbytes).2.files.any
          (nzfEq (mkNzbFile (gs.foldl insertGroup nzo) (tsOf t date) s
            (dbSorted (segs.foldl segStep
              ⟨gs.foldl insertGroup nzo, md5, [], 0⟩).db)
            (segs.foldl segStep
              ⟨gs.foldl insertGroup nzo, md5, [], 0⟩).fbytes).1)) = true
      · rw [if_pos hdup] at hstep2
        rw [runBody_cons_cont t _ _ _ _ hstep2] at h2
        rw [hfs, if_pos hdup]
        exact ⟨rfl, h2⟩
      · rw [if_neg hdup] at hstep2
        rw [runBody_cons_cont t _ _ _ _ hstep2] at h2
        rw [hfs, if_neg hdup]
        exact ⟨rfl, h2⟩

theorem runBody_files_ok (t : ℚ) (fs : List RawFile) (rest : List Line)
    (nzo : Nzo) (md5 : List String) (avg : ℚ) (valid skipped : Nat)
    (fin : SState)
    (hwf : ∀ f ∈ fs, (∀ g ∈ f.groups, g.isSome) ∧
      (∀ s ∈ f.segments, s.text.isSome))
    (h : runBody t (fs.flatMap renderFile ++ rest)
      ⟨nzo, md5, avg, valid, none⟩ = .ok fin) :
    (fs.foldl (fileStep t) ⟨nzo, md5, avg, valid, skipped⟩).skipped = skipped ∧
    runBody t rest
      ⟨(fs.foldl (fileStep t) ⟨nzo, md5, avg, valid, skipped⟩).nzo,
       (fs.foldl (fileStep t) ⟨nzo, md5, avg, valid, skipped⟩).md5,
       (fs.foldl (fileStep t) ⟨nzo, md5, avg, valid, skipped⟩).avg,
       (fs.foldl (fileStep t) ⟨nzo, md5, avg, valid, skipped⟩).valid, none⟩ =
      .ok fin := by
  induction fs generalizing nzo md5 avg valid skipped with
  | nil => exact ⟨rfl, h⟩
  | cons f fs ih =>
    rw [List.flatMap_cons, List.append_assoc] at h
    obtain ⟨hsk, h2⟩ := runBody_file_ok t f _ nzo md5 avg valid skipped fin
      (hwf f (List.mem_cons_self _ _)).1 (hwf f (List.mem_cons_self _ _)).2 h
    rw [List.foldl_cons]
    obtain ⟨hsk2, h3⟩ := ih
      (fileStep t ⟨nzo, md5, avg, valid, skipped⟩ f).nzo
      (fileStep t ⟨nzo, md5, avg, valid, skipped⟩ f).md5
      (fileStep t ⟨nzo, md5, avg, valid, skipped⟩ f).avg
      (fileStep t ⟨nzo, md5, avg, valid, skipped⟩ f).valid
      (fileStep t ⟨nzo, md5, avg, valid, skipped⟩ f).skipped
      (fun g hg => hwf g (List.mem_cons_of_mem _ hg)) h2
    exact ⟨hsk2.trans hsk, h3⟩

theorem parsers_agree (t : ℚ) (d : Doc) (n : Nzo) (hwf : WellFormedDoc d)
    (hok : (nzbfile_regex_parse t (renderDoc d) n).1 = true) :
    (nzbfile_regex_parse t (renderDoc d) n).2 = structuredParse t d n := by
  obtain ⟨rest, st, hh, hr, heq⟩ := regex_parse_ok_shape t (renderDoc d) n hok
  have hh2 : headerScan (renderDoc d) 0 false =
      some (d.metas.map renderMeta ++
        (d.files.flatMap renderFile ++ [Line.endNzb]), true) := by
    simp [renderDoc, headerScan]
  rw [hh2] at hh
  have hrest : d.metas.map renderMeta ++
      (d.files.flatMap renderFile ++ [Line.endNzb]) = rest := by
    simp at hh
    exact hh
  subst hrest
  rw [runBody_metas] at hr
  obtain ⟨hsk, h2⟩ := runBody_files_ok t d.files [Line.endNzb]
    (d.metas.foldl metaStep n) [] 0 0 0 st (fun f hf => hwf f hf) hr
  have hstep : bodyStep t
      ⟨(d.files.foldl (fileStep t)
          ⟨d.metas.foldl metaStep n, [], 0, 0, 0⟩).nzo,
       (d.files.foldl (fileStep t)
          ⟨d.metas.foldl metaStep n, [], 0, 0, 0⟩).md5,
       (d.files.foldl (fileStep t)
          ⟨d.metas.foldl metaStep n, [], 0, 0, 0⟩).avg,
       (d.files.foldl (fileStep t)
          ⟨d.metas.foldl metaStep n, [], 0, 0, 0⟩).valid, none⟩ Line.endNzb =
      .done ⟨(d.files.foldl (fileStep t)
          ⟨d.metas.foldl metaStep n, [], 0, 0, 0⟩).nzo,
       (d.files.foldl (fileStep t)
          ⟨d.metas.foldl metaStep n, [], 0, 0, 0⟩).md5,
       (d.files.foldl (fileStep t)
          ⟨d.metas.foldl metaStep n, [], 0, 0, 0⟩).avg,
       (d.files.foldl (fileStep t)
          ⟨d.metas.foldl metaStep n, [], 0, 0, 0⟩).valid, none⟩ := by
    simp [bodyStep]
  rw [runBody_cons_done t _ _ _ _ hstep] at h2
  have hst : st = ⟨(d.files.foldl (fileStep t)
          ⟨d.metas.foldl metaStep n, [], 0, 0, 0⟩).nzo,
       (d.files.foldl (fileStep t)
          ⟨d.metas.foldl metaStep n, [], 0, 0, 0⟩).md5,
       (d.files.foldl (fileStep t)
          ⟨d.metas.foldl metaStep n, [], 0, 0, 0⟩).avg,
       (d.files.foldl (fileStep t)
          ⟨d.metas.foldl metaStep n, [], 0, 0, 0⟩).valid, none⟩ := by
    injection h2 with h3
    exact h3.symm
  rw [heq, hst]
  rfl

/-- Claim C4 (confirmed): on every well-formed document that the streaming
fallback parser processes to completion, the streaming parser and the
structured element-tree parser produce Jobs with the same dedup-hash input
stream, the same group list, and the same total byte count (in fact the
whole resulting Job coincides). -/
theorem C4_parser_equivalence (t : ℚ) (d : Doc) (hwf : WellFormedDoc d)
    (hok : (nzbfile_regex_parse t (renderDoc d) emptyNzo).1 = true) :
    (nzbfile_regex_parse t (renderDoc d) emptyNzo).2.md5sum =
      (structuredParse t d emptyNzo).md5sum ∧
    (nzbfile_regex_parse t (renderDoc d) emptyNzo).2.groups =
      (structuredParse t d emptyNzo).groups ∧
    (nzbfile_regex_parse t (renderDoc d) emptyNzo).2.bytes =
      (structuredParse t d emptyNzo).bytes := by
  rw [parsers_agree t d emptyNzo hwf hok]
  exact ⟨rfl, rfl, rfl⟩

/-- Witness for C4 at a concrete input: the spec §8 example document (one
file, segments A/100 and B/200) is well formed, the streaming parser accepts
it, and both parsers agree on hash input, groups and bytes. -/
theorem C4_witness :
    WellFormedDoc wfDoc ∧
    (nzbfile_regex_parse 3 (renderDoc wfDoc) emptyNzo).1 = true ∧
    ((nzbfile_regex_parse 3 (renderDoc wfDoc) emptyNzo).2.md5sum =
      (structuredParse 3 wfDoc emptyNzo).md5sum ∧
     (nzbfile_regex_parse 3 (renderDoc wfDoc) emptyNzo).2.groups =
      (structuredParse 3 wfDoc emptyNzo).groups ∧
     (nzbfile_regex_parse 3 (renderDoc wfDoc) emptyNzo).2.bytes =
      (structuredParse 3 wfDoc emptyNzo).bytes) :=
  ⟨by decide, by decide, C4_parser_equivalence 3 wfDoc (by decide) (by decide)⟩

/-- Claim C2 (amended): the dedup hash is computed over every segment
identifier whose segment parses (text, `bytes` and `number` attributes all
present), in document order — including segments rejected for bad size,
duplicate part numbers, and segments of files that are later dropped; the
streaming parser, when it succeeds, feeds the same stream. -/
theorem C2_hash_covers_all_parsed (t : ℚ) (d : Doc) (n : Nzo) :
    (structuredParse t d n).md5sum = some (allParsedIds d) ∧
    (WellFormedDoc d → (nzbfile_regex_parse t (renderDoc d) emptyNzo).1 = true →
      (nzbfile_regex_parse t (renderDoc d) emptyNzo).2.md5sum =
        some (allParsedIds d)) := by
  refine ⟨structuredParse_md5 t d n, fun hwf hok => ?_⟩
  rw [parsers_agree t d emptyNzo hwf hok]
  exact structuredParse_md5 t d emptyNzo

/-- Witness for C2 at a concrete input: on the spec §8 example document the
hash input stream of both parsers is exactly `["A", "B"]`, the parsed
identifiers in document order. -/
theorem C2_witness :
    WellFormedDoc wfDoc ∧
    (nzbfile_regex_parse 2 (renderDoc wfDoc) emptyNzo).1 = true ∧
    (structuredParse 2 wfDoc emptyNzo).md5sum = some (allParsedIds wfDoc) ∧
    (nzbfile_regex_parse 2 (renderDoc wfDoc) emptyNzo).2.md5sum =
      some (allParsedIds wfDoc) :=
  ⟨by decide, by decide, (C2_hash_covers_all_parsed 2 wfDoc emptyNzo).1,
   (C2_hash_covers_all_parsed 2 wfDoc emptyNzo).2 (by decide) (by decide)⟩
